import Mathlib

/-!
Verification of the interactive force-directed graph engine of ContractClarity
(`src/frontend/src/app/documents/[id]/graph/page.tsx`).

The TypeScript component is shallowly embedded below.  JavaScript `number`
arithmetic is modelled over `ℚ`; the transcendental library functions
(`Math.sqrt`, `Math.cos`, `Math.sin`, `Math.PI`) and the random source
(`Math.random`) are abstracted as explicit function parameters, so every
theorem below holds for every instantiation of those oracles — in particular
for the real ones.  The structure of every definition mirrors the source
line by line, including the sequential in-place mutation order of the
simulation loops.
-/

namespace GraphEngine

/-- The `Node` interface of graph/page.tsx (lines 24-35): graph datum plus
kinematic state.  `fx`/`fy` model the optional pin fields; `none` stands for
both `undefined` and `null` (the code treats them identically). -/
structure Node where
  id : String
  label : String
  type' : String
  value : Option String
  x : ℚ
  y : ℚ
  vx : ℚ
  vy : ℚ
  fx : Option ℚ := none
  fy : Option ℚ := none
deriving DecidableEq, Repr, Inhabited

/-- The `Edge` interface of graph/page.tsx (lines 37-43). -/
structure Edge where
  id : String
  source : String
  target : String
  type' : String
  label : String
deriving DecidableEq, Repr, Inhabited

/-- A node of the `GraphData` payload returned by the API: the fields of
`Node` without the kinematic state (the spread `...node` in `initializeGraph`
copies exactly these). -/
structure DataNode where
  id : String
  label : String
  type' : String
  value : Option String
deriving DecidableEq, Repr, Inhabited

/-- The `GraphData` payload (nodes + edges; the advisory `stats` field is
display-only and not used by the engine). -/
structure GraphData where
  nodes : List DataNode
  edges : List Edge
deriving DecidableEq, Repr, Inhabited

/-- `Math.min` over exact rationals (kernel-reducible; equal to Mathlib's
`min`, see `minQ_eq_min`). -/
def minQ (a b : ℚ) : ℚ := if a ≤ b then a else b

/-- `Math.max` over exact rationals (kernel-reducible; equal to Mathlib's
`max`, see `maxQ_eq_max`). -/
def maxQ (a b : ℚ) : ℚ := if a ≤ b then b else a

/-! ### Force-simulation constants (graph/page.tsx lines 167-173) -/

def repulsion : ℚ := 5000
def attraction : ℚ := 0.002
def damping : ℚ := 0.9
def centerForce : ℚ := 0.002
def maxVelocity : ℚ := 5
def minDistance : ℚ := 80

/-! ### Renderer transform (drawGraph, lines 261-271) and pointer inverse
(handleCanvasMouseDown / handleCanvasMouseMove, lines 358-360, 384-386) -/

/-- `ctx.setTransform(dpr, 0, 0, dpr, 0, 0)`: scale by the device pixel
ratio. -/
def dprScale (dpr : ℚ) (p : ℚ × ℚ) : ℚ × ℚ := (dpr * p.1, dpr * p.2)

/-- `ctx.translate(pan.x, pan.y)`. -/
def panTranslate (pan p : ℚ × ℚ) : ℚ × ℚ := (p.1 + pan.1, p.2 + pan.2)

/-- `ctx.scale(zoom, zoom)`. -/
def zoomScale (zoom : ℚ) (p : ℚ × ℚ) : ℚ × ℚ := (zoom * p.1, zoom * p.2)

/-- The composed canvas transform of `drawGraph`: DPR scale applied first,
then pan translation, then zoom scale (as matrix composition, so a drawn
point passes through zoom, then pan, then DPR). -/
def modelToDevice (dpr zoom : ℚ) (pan p : ℚ × ℚ) : ℚ × ℚ :=
  dprScale dpr (panTranslate pan (zoomScale zoom p))

/-- The pointer-to-model conversion used by both mouse handlers:
`x = (e.clientX - rect.left - pan.x) / zoom`, and likewise for `y`. -/
def screenToModel (zoom : ℚ) (pan : ℚ × ℚ) (clientX clientY left top : ℚ) :
    ℚ × ℚ :=
  ((clientX - left - pan.1) / zoom, (clientY - top - pan.2) / zoom)

/-! ### Zoom operations (handleWheel lines 421-425, header buttons
lines 528, 534) -/

/-- `handleWheel`: multiply zoom by 0.9 when `deltaY > 0`, by 1.1 otherwise,
clamped into `[0.3, 3]`. -/
def handleWheel (deltaY z : ℚ) : ℚ :=
  let delta : ℚ := if deltaY > 0 then 0.9 else 1.1
  maxQ 0.3 (minQ 3 (z * delta))

/-- The zoom-in header button: `setZoom((z) => Math.min(3, z * 1.2))`. -/
def zoomInButton (z : ℚ) : ℚ := minQ 3 (z * 1.2)

/-- The zoom-out header button: `setZoom((z) => Math.max(0.3, z * 0.8))`. -/
def zoomOutButton (z : ℚ) : ℚ := maxQ 0.3 (z * 0.8)

/-! ### View / selection state and its mutators (for resetView, lines
427-432, and toggleType, lines 434-442) -/

/-- The zoom/pan/selection/filter state of the page.  `selectedTypes`
models the JS `Set<string>` as a duplicate-free list (JS `Set.add` appends,
`Set.delete` removes the single occurrence). -/
structure ViewState where
  zoom : ℚ
  pan : ℚ × ℚ
  selectedNode : Option String
  selectedTypes : List String
deriving DecidableEq, Repr, Inhabited

/-- `toggleType`: remove the type from the filter set when present,
otherwise add it. -/
def toggleType (s : List String) (t : String) : List String :=
  if s.contains t then s.erase t else s ++ [t]

/-- The zoom-, pan-, selection- and filter-mutating operations the page can
perform between loads. -/
inductive ViewAction where
  | wheel (deltaY : ℚ)
  | zoomIn
  | zoomOut
  | setPan (p : ℚ × ℚ)
  | select (n : Option String)
  | toggle (t : String)
deriving DecidableEq, Repr

/-- Apply one view mutation. -/
def applyAction (s : ViewState) : ViewAction → ViewState
  | .wheel d => { s with zoom := handleWheel d s.zoom }
  | .zoomIn => { s with zoom := zoomInButton s.zoom }
  | .zoomOut => { s with zoom := zoomOutButton s.zoom }
  | .setPan p => { s with pan := p }
  | .select n => { s with selectedNode := n }
  | .toggle t => { s with selectedTypes := toggleType s.selectedTypes t }

/-- `resetView` (lines 427-432): restore zoom 0.8, pan (0,0), clear the
selection and the type filter, ignoring all prior state. -/
def resetView (_s : ViewState) : ViewState :=
  { zoom := 0.8, pan := (0, 0), selectedNode := none, selectedTypes := [] }

/-! ### Hit testing (handleCanvasMouseDown lines 362-367,
handleCanvasMouseMove hover lines 398-402) -/

/-- The per-node hit predicate: `Math.sqrt(dx*dx + dy*dy) < 20` with the
pointer at model coordinates `(x, y)`; `sqrtF` abstracts `Math.sqrt`. -/
def hitNode (sqrtF : ℚ → ℚ) (x y : ℚ) (n : Node) : Bool :=
  let dx := n.x - x
  let dy := n.y - y
  sqrtF (dx * dx + dy * dy) < 20

/-- The node search of `handleCanvasMouseDown`: convert the pointer to model
space, then `nodesRef.current.find(...)` — the FIRST array element within
the 20-unit hit radius. -/
def mouseDownHit (sqrtF : ℚ → ℚ) (nodes : List Node) (zoom : ℚ)
    (pan : ℚ × ℚ) (clientX clientY left top : ℚ) : Option Node :=
  let m := screenToModel zoom pan clientX clientY left top
  nodes.find? (hitNode sqrtF m.1 m.2)

/-- The hover search of `handleCanvasMouseMove` (taken when no node is being
dragged and the canvas is not being panned): same conversion, same
first-match search. -/
def hoverHit (sqrtF : ℚ → ℚ) (nodes : List Node) (zoom : ℚ)
    (pan : ℚ × ℚ) (clientX clientY left top : ℚ) : Option Node :=
  let m := screenToModel zoom pan clientX clientY left top
  nodes.find? (hitNode sqrtF m.1 m.2)

/-! ### The simulation tick (runSimulation, lines 154-252)

The source mutates the node array in place; the embedding threads the array
state explicitly, in the same order: first the per-node force pass (pin
snap, pairwise repulsion, centering) done sequentially over the array so
that later nodes observe the already-updated earlier nodes, then the edge
attraction pass sequentially over the edge array via first-match id lookup,
then the independent per-node integration pass. -/

/-- Lines 177-184: for a pinned axis, force the position to the pin target
and zero the velocity. -/
def pinSnap (n : Node) : Node :=
  let n1 := match n.fx with
    | some px => { n with x := px, vx := 0 }
    | none => n
  match n1.fy with
  | some py => { n1 with y := py, vy := 0 }
  | none => n1

/-- Lines 187-205: the inner repulsion loop body — contribution of `other`
to the velocity of `n` (self skipped by id equality); `sqrtF` abstracts
`Math.sqrt`. -/
def repelStep (sqrtF : ℚ → ℚ) (n other : Node) : Node :=
  if n.id = other.id then n else
  let dx := n.x - other.x
  let dy := n.y - other.y
  let dist := sqrtF (dx * dx + dy * dy)
  let n1 :=
    if dist < minDistance ∧ 0 < dist then
      let pushStrength := (minDistance - dist) * 0.5
      { n with vx := n.vx + dx / dist * pushStrength,
               vy := n.vy + dy / dist * pushStrength }
    else n
  let safeDist := maxQ dist 10
  let force := repulsion / (safeDist * safeDist)
  { n1 with vx := n1.vx + dx / safeDist * force,
            vy := n1.vy + dy / safeDist * force }

/-- Lines 176-210: the body of the outer force loop for one node, reading
the current array state `all`. -/
def forcePass (sqrtF : ℚ → ℚ) (w h : ℚ) (all : List Node) (n : Node) :
    Node :=
  let n1 := pinSnap n
  let n2 := all.foldl (repelStep sqrtF) n1
  { n2 with vx := n2.vx + (w / 2 - n2.x) * centerForce,
            vy := n2.vy + (h / 2 - n2.y) * centerForce }

/-- The full force pass: `nodes.forEach` mutates each element in place, so
element `i` is replaced by `forcePass` applied to the array state in which
elements `0..i-1` are already updated. -/
def forcesPhase (sqrtF : ℚ → ℚ) (w h : ℚ) (nodes : List Node) :
    List Node :=
  (List.range nodes.length).foldl
    (fun st i => st.set i (forcePass sqrtF w h st (st.getD i default)))
    nodes

/-- Lines 213-226: one edge of the attraction pass.  The source/target are
looked up by first id match (`nodes.find`); when either is absent the edge
is skipped.  The displacement is computed before either endpoint's velocity
is mutated, exactly as in the source (the unused `dist` of line 220 has no
effect and is omitted). -/
def attractEdge (st : List Node) (e : Edge) : List Node :=
  match st.findIdx? (fun n => n.id = e.source),
        st.findIdx? (fun n => n.id = e.target) with
  | some si, some ti =>
      let s := st.getD si default
      let t := st.getD ti default
      let dx := t.x - s.x
      let dy := t.y - s.y
      let st1 := st.set si
        { s with vx := s.vx + dx * attraction, vy := s.vy + dy * attraction }
      let t1 := st1.getD ti default
      st1.set ti
        { t1 with vx := t1.vx - dx * attraction,
                  vy := t1.vy - dy * attraction }
  | _, _ => st

/-- The attraction pass: `edges.forEach`, sequential over the edge list. -/
def attractionPhase (st : List Node) (edges : List Edge) : List Node :=
  edges.foldl attractEdge st

/-- Lines 229-241: the velocity/position update of the integration loop.
On each axis without an active pin: damp the velocity, clamp it to
`[-maxVelocity, maxVelocity]`, then add it to the position.  Pinned axes are
skipped entirely. -/
def integrateVel (n : Node) : Node :=
  let n1 := match n.fx with
    | none =>
      let vx1 := n.vx * damping
      let vx2 := maxQ (-maxVelocity) (minQ maxVelocity vx1)
      { n with vx := vx2, x := n.x + vx2 }
    | some _ => n
  match n1.fy with
  | none =>
    let vy1 := n1.vy * damping
    let vy2 := maxQ (-maxVelocity) (minQ maxVelocity vy1)
    { n1 with vy := vy2, y := n1.y + vy2 }
  | some _ => n1

/-- Lines 244-245: the unconditional viewport-inset clamp, applied to every
node, pinned or not. -/
def clampBounds (w h : ℚ) (n : Node) : Node :=
  { n with x := maxQ 40 (minQ (w - 40) n.x), y := maxQ 40 (minQ (h - 40) n.y) }

/-- The whole integration loop body (lines 229-246). -/
def integrate (w h : ℚ) (n : Node) : Node := clampBounds w h (integrateVel n)

/-- One full kinematic tick of `runSimulation` (the physics of lines
175-246; drawing reads but never writes kinematic state). -/
def simStep (sqrtF : ℚ → ℚ) (w h : ℚ) (nodes : List Node)
    (edges : List Edge) : List Node :=
  (attractionPhase (forcesPhase sqrtF w h nodes) edges).map (integrate w h)

/-- One invocation of `runSimulation` (lines 154-252) including its early
returns: when the canvas ref is null or the node set is empty (line 158), or
the 2D context is unavailable (lines 160-161), the function returns before
both the physics and the `requestAnimationFrame(runSimulation)` call of line
251.  The boolean component records whether the next frame was scheduled. -/
def runSimulationTick (sqrtF : ℚ → ℚ) (canvasAvailable ctxAvailable : Bool)
    (w h : ℚ) (nodes : List Node) (edges : List Edge) :
    List Node × Bool :=
  if !canvasAvailable || nodes.isEmpty then (nodes, false)
  else if !ctxAvailable then (nodes, false)
  else (simStep sqrtF w h nodes edges, true)

/-! ### Drawing selection (drawGraph, lines 273-306) -/

/-- Lines 274-276: the node set drawn — everything when the filter is empty,
otherwise only nodes of a selected type. -/
def visibleNodes (selectedTypes : List String) (nodes : List Node) :
    List Node :=
  if selectedTypes.isEmpty then nodes
  else nodes.filter (fun n => selectedTypes.contains n.type')

/-- Lines 280-285: the edges drawn — both endpoint ids must be visible node
ids, and both endpoints must be found in the node array. -/
def drawnEdges (selectedTypes : List String) (nodes : List Node)
    (edges : List Edge) : List Edge :=
  let visibleNodeIds := (visibleNodes selectedTypes nodes).map (·.id)
  edges.filter (fun e =>
    visibleNodeIds.contains e.source && visibleNodeIds.contains e.target &&
    (nodes.find? (fun n => n.id = e.source)).isSome &&
    (nodes.find? (fun n => n.id = e.target)).isSome)

/-- What one animation frame produces: the new kinematic state plus the node
and edge sets handed to the drawing passes. -/
structure FrameOutput where
  nodes : List Node
  drawn : List Node
  drawnEdgeList : List Edge
deriving Repr

/-- One `runSimulation` frame on the happy path: physics tick, then the
draw-pass selection under the active type filter. -/
def tickAndDraw (sqrtF : ℚ → ℚ) (w h : ℚ) (selectedTypes : List String)
    (nodes : List Node) (edges : List Edge) : FrameOutput :=
  let nodes1 := simStep sqrtF w h nodes edges
  { nodes := nodes1,
    drawn := visibleNodes selectedTypes nodes1,
    drawnEdgeList := drawnEdges selectedTypes nodes1 edges }

/-- `N` consecutive frames, returning the kinematic state after the last. -/
def runFrames (sqrtF : ℚ → ℚ) (w h : ℚ) (selectedTypes : List String)
    (edges : List Edge) : List Node → ℕ → List Node
  | nodes, 0 => nodes
  | nodes, Nat.succ k =>
      runFrames sqrtF w h selectedTypes edges
        (tickAndDraw sqrtF w h selectedTypes nodes edges).nodes k

/-! ### Graph loading (initializeGraph, lines 116-152) -/

/-- Line 128-143: seed one node on the jittered circle.  `piQ` abstracts
`Math.PI`, `cosF`/`sinF` abstract `Math.cos`/`Math.sin`, and `rand i` gives
the three `Math.random()` draws of iteration `i`. -/
def initNode (piQ : ℚ) (cosF sinF : ℚ → ℚ) (rand : ℕ → ℚ × ℚ × ℚ)
    (w h : ℚ) (total i : ℕ) (nd : DataNode) : Node :=
  let angle := 2 * piQ * (i : ℚ) / (total : ℚ)
  let baseRadius := minQ w h * 0.35
  let r := rand i
  let radius := baseRadius * (0.5 + r.1 * 0.5)
  let jitterX := (r.2.1 - 0.5) * 80
  let jitterY := (r.2.2 - 0.5) * 80
  { id := nd.id, label := nd.label, type' := nd.type', value := nd.value,
    x := w / 2 + radius * cosF angle + jitterX,
    y := h / 2 + radius * sinF angle + jitterY,
    vx := 0, vy := 0, fx := none, fy := none }

/-- `initializeGraph` (lines 116-152): seed the kinematic node set from
`data.nodes` and store the edge set — `edgesRef.current = data.edges`
(line 145) stores the edges as received, with no filtering. -/
def initGraph (piQ : ℚ) (cosF sinF : ℚ → ℚ) (rand : ℕ → ℚ × ℚ × ℚ)
    (w h : ℚ) (data : GraphData) : List Node × List Edge :=
  (data.nodes.enum.map
      (fun p => initNode piQ cosF sinF rand w h data.nodes.length p.1 p.2),
   data.edges)

/-- Whether a node with the given id is present in the node array. -/
def hasNode (st : List Node) (i : String) : Bool :=
  st.any (fun n => n.id = i)

/-- The non-velocity projections of a node (id, position, pin targets):
exactly the data that the force and attraction passes leave unchanged. -/
def kstat (n : Node) : String × ℚ × ℚ × Option ℚ × Option ℚ :=
  (n.id, n.x, n.y, n.fx, n.fy)

/-! ### Concrete sample data used by witnesses and counterexamples -/

/-- An integer square-root oracle used to instantiate the abstract `sqrtF`
in concrete runs; it agrees with `Math.sqrt` on perfect integer squares. -/
def sqrtInt (q : ℚ) : ℚ := (Nat.sqrt q.num.toNat : ℚ)

/-- A sample unpinned node sitting at the center of an 800×600 viewport. -/
def sampleNode : Node :=
  { id := "A", label := "Acme Pty Ltd", type' := "party", value := none,
    x := 400, y := 300, vx := 0, vy := 0 }

/-- A sample node pinned outside the 40-unit viewport inset. -/
def pinnedOutside : Node :=
  { id := "A", label := "Acme Pty Ltd", type' := "party", value := none,
    x := 200, y := 200, vx := 0, vy := 0, fx := some 10, fy := some 10 }

/-- A sample node pinned at (100, 100), inside the inset of an 800×800
viewport. -/
def pinnedInside : Node :=
  { id := "A", label := "Acme Pty Ltd", type' := "party", value := none,
    x := 200, y := 200, vx := 0, vy := 0, fx := some 100, fy := some 100 }

/-- A sample node at the center of a degenerate 50×50 viewport. -/
def smallNode : Node :=
  { id := "A", label := "Acme Pty Ltd", type' := "party", value := none,
    x := 25, y := 25, vx := 0, vy := 0 }

/-- A node 15 model units away from the model-space origin. -/
def nodeFar : Node :=
  { id := "far", label := "far", type' := "party", value := none,
    x := 9, y := 12, vx := 0, vy := 0 }

/-- A node exactly at the model-space origin. -/
def nodeNear : Node :=
  { id := "near", label := "near", type' := "date", value := none,
    x := 0, y := 0, vx := 0, vy := 0 }

/-- The spec's edge-filtering example: nodes `{A, B}` and edges
`[{A,B}, {A,C}]` with `C` absent. -/
def dataAB : GraphData :=
  { nodes := [⟨"A", "Acme", "party", none⟩, ⟨"B", "Bolt", "party", none⟩],
    edges := [⟨"e1", "A", "B", "relates", "rel"⟩,
              ⟨"e2", "A", "C", "relates", "rel"⟩] }

/-! ## General lemmas -/

theorem minQ_eq_min (a b : ℚ) : minQ a b = min a b := by
  rw [minQ, min_def]

theorem maxQ_eq_max (a b : ℚ) : maxQ a b = max a b := by
  rw [maxQ, max_def]

/-! ## Claim C4 — transform round trip -/

/-- Claim C4: the renderer transform is DPR scale ∘ pan translation ∘ zoom
scale, sending the model point `(x, y)` to the device pixel
`((x·zoom + pan.x)·dpr, (y·zoom + pan.y)·dpr)`, and the pointer conversion
of the mouse handlers inverts it exactly: feeding the drawn point's CSS
position (device position divided by `dpr`, offset by the canvas corner)
back through `screenToModel` recovers `(x, y)`. -/
theorem transform_round_trip (x y zoom dpr left top : ℚ) (pan : ℚ × ℚ)
    (hz : zoom ≠ 0) (hd : dpr ≠ 0) :
    modelToDevice dpr zoom pan (x, y)
      = ((x * zoom + pan.1) * dpr, (y * zoom + pan.2) * dpr) ∧
    screenToModel zoom pan
        (left + (modelToDevice dpr zoom pan (x, y)).1 / dpr)
        (top + (modelToDevice dpr zoom pan (x, y)).2 / dpr) left top
      = (x, y) := by
  constructor
  · simp only [modelToDevice, dprScale, panTranslate, zoomScale, Prod.mk.injEq]
    constructor <;> ring
  · simp only [modelToDevice, dprScale, panTranslate, zoomScale,
      screenToModel, Prod.mk.injEq]
    constructor <;> (field_simp; try ring)

/-- Witness for C4 at `x = 7`, `y = -3`, `zoom = 2`, `pan = (5, 11)`,
`dpr = 2`, canvas corner `(100, 50)`. -/
theorem transform_round_trip_witness :
    modelToDevice 2 2 (5, 11) (7, -3)
      = ((7 * 2 + (5:ℚ)) * 2, (-3 * 2 + (11:ℚ)) * 2) ∧
    screenToModel 2 (5, 11)
        (100 + (modelToDevice 2 2 (5, 11) (7, -3)).1 / 2)
        (50 + (modelToDevice 2 2 (5, 11) (7, -3)).2 / 2) 100 50
      = (7, -3) :=
  transform_round_trip 7 (-3) 2 2 100 50 (5, 11) (by norm_num) (by norm_num)

/-! ## Claim C8 — wheel semantics and zoom bounds -/

/-- Claim C8: a wheel event multiplies the zoom by 0.9 when `deltaY > 0`
and by 1.1 otherwise, clamping the result into `[0.3, 3]`; and each of the
three zoom-mutating operations (wheel, zoom-in button, zoom-out button)
keeps the zoom inside `[0.3, 3]` whenever it starts inside. -/
theorem zoom_ops_spec (deltaY z : ℚ) :
    (deltaY > 0 → handleWheel deltaY z = max 0.3 (min 3 (z * 0.9))) ∧
    (¬ deltaY > 0 → handleWheel deltaY z = max 0.3 (min 3 (z * 1.1))) ∧
    (0.3 ≤ z → z ≤ 3 →
      (0.3 ≤ handleWheel deltaY z ∧ handleWheel deltaY z ≤ 3) ∧
      (0.3 ≤ zoomInButton z ∧ zoomInButton z ≤ 3) ∧
      (0.3 ≤ zoomOutButton z ∧ zoomOutButton z ≤ 3)) := by
  unfold handleWheel zoomInButton zoomOutButton
  rw [minQ_eq_min, maxQ_eq_max, minQ_eq_min, maxQ_eq_max]
  refine ⟨fun hd => by rw [if_pos hd], fun hd => by rw [if_neg hd], ?_⟩
  intro h1 h2
  refine ⟨⟨le_max_left _ _, max_le (by norm_num) (min_le_left _ _)⟩,
          ⟨le_min (by norm_num) (by nlinarith), min_le_left _ _⟩,
          ⟨le_max_left _ _, max_le (by norm_num) (by nlinarith)⟩⟩

/-- Witness for C8 at `deltaY = 4`, `z = 1`. -/
theorem zoom_ops_spec_witness :
    handleWheel 4 1 = max 0.3 (min 3 (1 * 0.9)) ∧
    (0.3 ≤ handleWheel 4 1 ∧ handleWheel 4 1 ≤ 3) :=
  ⟨(zoom_ops_spec 4 1).1 (by norm_num),
   ((zoom_ops_spec 4 1).2.2 (by norm_num) (by norm_num)).1⟩

/-! ## Claim C9 — reset totality -/

/-- Claim C9: after any sequence of pan, zoom, selection and type-filter
mutations, `resetView` restores zoom 0.8, pan (0, 0), no selected node and
an empty type-filter set — and the empty filter means every node is drawn. -/
theorem reset_totality (s : ViewState) (acts : List ViewAction)
    (nodes : List Node) :
    resetView (acts.foldl applyAction s)
      = { zoom := 0.8, pan := (0, 0), selectedNode := none,
          selectedTypes := [] } ∧
    visibleNodes (resetView (acts.foldl applyAction s)).selectedTypes nodes
      = nodes :=
  ⟨rfl, rfl⟩

/-! ## Claim C5 — the type filter is view-only -/

/-- Claim C5: two runs of any number of frames that differ only in the
type-filter set produce identical kinematic states (positions and
velocities): the filter enters each frame only through the drawing passes. -/
theorem filter_view_only (sqrtF : ℚ → ℚ) (w h : ℚ) (f1 f2 : List String)
    (nodes : List Node) (edges : List Edge) (N : ℕ) :
    runFrames sqrtF w h f1 edges nodes N
      = runFrames sqrtF w h f2 edges nodes N := by
  induction N generalizing nodes with
  | zero => rfl
  | succ k ih => simpa only [runFrames, tickAndDraw] using ih _

/-! ## Claim C2 — no-op tick, but no automatic resume -/

/-- Counterexample to claim C2 as stated: with one node, a present canvas
but an unavailable 2D context, the tick leaves the state unchanged but does
NOT schedule the next frame — `runSimulation` returns before the
`requestAnimationFrame` call, so the loop is not "scheduled on every
frame". -/
theorem tick_resume_counterexample :
    (runSimulationTick (fun _ => 0) true false 800 600 [sampleNode] []).1
      = [sampleNode] ∧
    ¬ (runSimulationTick (fun _ => 0) true false 800 600 [sampleNode] []).2
      = true := by
  with_unfolding_all decide

/-- Claim C2 amended: whenever the canvas is absent, the 2D context is
unavailable, or the node set is empty, the tick is a no-op on all kinematic
state — and the per-frame callback is not rescheduled (the early returns
precede the `requestAnimationFrame` call), so the loop does not resume by
itself; it restarts only when `runSimulation` is invoked afresh, e.g. by
re-initialization on a new load. -/
theorem tick_noop_no_reschedule (sqrtF : ℚ → ℚ)
    (canvasAvailable ctxAvailable : Bool) (w h : ℚ) (nodes : List Node)
    (edges : List Edge)
    (hskip : canvasAvailable = false ∨ ctxAvailable = false ∨ nodes = []) :
    runSimulationTick sqrtF canvasAvailable ctxAvailable w h nodes edges
      = (nodes, false) := by
  rcases hskip with hc | hc | hc <;>
    simp [runSimulationTick, hc]

/-- Witness for the amended C2: a missing context with one node. -/
theorem tick_noop_no_reschedule_witness :
    runSimulationTick (fun _ => 0) true false 800 600 [sampleNode] []
      = ([sampleNode], false) :=
  tick_noop_no_reschedule (fun _ => 0) true false 800 600 [sampleNode] []
    (Or.inr (Or.inl rfl))

/-! ## List helper lemmas shared by the simulation proofs -/

theorem length_foldl_set (F : List Node → ℕ → Node) (l : List ℕ)
    (st : List Node) :
    (l.foldl (fun s i => s.set i (F s i)) st).length = st.length := by
  induction l generalizing st with
  | nil => rfl
  | cons i t ih => simp only [List.foldl_cons, ih, List.length_set]

theorem length_forcesPhase (sqrtF : ℚ → ℚ) (w h : ℚ) (nodes : List Node) :
    (forcesPhase sqrtF w h nodes).length = nodes.length :=
  length_foldl_set (fun s i => forcePass sqrtF w h s (s.getD i default)) _ _

theorem length_attractEdge (st : List Node) (e : Edge) :
    (attractEdge st e).length = st.length := by
  unfold attractEdge
  cases hfs : st.findIdx? (fun n => n.id = e.source) <;>
    cases hft : st.findIdx? (fun n => n.id = e.target) <;>
    simp [List.length_set]

theorem length_attractionPhase (st : List Node) (edges : List Edge) :
    (attractionPhase st edges).length = st.length := by
  induction edges generalizing st with
  | nil => rfl
  | cons e t ih =>
      show (List.foldl attractEdge (attractEdge st e) t).length = st.length
      rw [show List.foldl attractEdge (attractEdge st e) t
            = attractionPhase (attractEdge st e) t from rfl]
      rw [ih, length_attractEdge]

theorem getD_map (f : Node → Node) (l : List Node) (i : ℕ)
    (hi : i < l.length) (d : Node) :
    (l.map f).getD i d = f (l.getD i d) := by
  induction l generalizing i with
  | nil => simp at hi
  | cons a t ih =>
      cases i with
      | zero => rfl
      | succ k =>
          simp only [List.map_cons, List.getD_cons_succ]
          exact ih k (by simpa using hi)

/-! ## Claim C7 — bounded-layout invariant -/

/-- Counterexample to claim C7 as stated: with a degenerate 50×50 logical
viewport the interval `[40, width − 40]` is empty, and the clamp leaves the
node at `x = 40 > width − 40`. -/
theorem bounded_layout_counterexample :
    ¬ (∀ n ∈ simStep (fun _ => 0) 50 50 [smallNode] [],
        40 ≤ n.x ∧ n.x ≤ 50 - 40 ∧ 40 ≤ n.y ∧ n.y ≤ 50 - 40) := by
  with_unfolding_all decide

/-- Claim C7 amended: whenever the logical viewport is at least 80×80 (so
the inset interval is nonempty), after every tick every node — pinned or
not — has `x ∈ [40, width − 40]` and `y ∈ [40, height − 40]`. -/
theorem bounded_layout (sqrtF : ℚ → ℚ) (w h : ℚ) (nodes : List Node)
    (edges : List Edge) (hw : 80 ≤ w) (hh : 80 ≤ h) :
    ∀ n ∈ simStep sqrtF w h nodes edges,
      40 ≤ n.x ∧ n.x ≤ w - 40 ∧ 40 ≤ n.y ∧ n.y ≤ h - 40 := by
  intro n hn
  rw [simStep, List.mem_map] at hn
  obtain ⟨m, _, rfl⟩ := hn
  have hx : (integrate w h m).x = maxQ 40 (minQ (w - 40) (integrateVel m).x) :=
    rfl
  have hy : (integrate w h m).y = maxQ 40 (minQ (h - 40) (integrateVel m).y) :=
    rfl
  rw [hx, hy, maxQ_eq_max, minQ_eq_min, maxQ_eq_max, minQ_eq_min]
  exact ⟨le_max_left _ _, max_le (by linarith) (min_le_left _ _),
         le_max_left _ _, max_le (by linarith) (min_le_left _ _)⟩

/-- Witness for the amended C7: one centered node in an 800×600 viewport. -/
theorem bounded_layout_witness :
    40 ≤ sampleNode.x ∧ sampleNode.x ≤ 800 - 40 ∧
    40 ≤ sampleNode.y ∧ sampleNode.y ≤ 600 - 40 := by
  have h : simStep (fun _ => 0) 800 600 [sampleNode] [] = [sampleNode] := by
    with_unfolding_all rfl
  exact bounded_layout (fun _ => 0) 800 600 [sampleNode] [] (by norm_num)
    (by norm_num) sampleNode (by rw [h]; exact List.mem_singleton_self _)

/-! ## Claim C6 — the integration step -/

theorem integrateVel_x_unpinned (n : Node) (hfx : n.fx = none) :
    (integrateVel n).vx = maxQ (-maxVelocity) (minQ maxVelocity (n.vx * damping)) ∧
    (integrateVel n).x
      = n.x + maxQ (-maxVelocity) (minQ maxVelocity (n.vx * damping)) := by
  cases hfy : n.fy <;>
    simp only [integrateVel, hfx, hfy] <;>
    exact ⟨by trivial, by trivial⟩

theorem integrateVel_x_pinned (n : Node) (hfx : n.fx ≠ none) :
    (integrateVel n).vx = n.vx ∧ (integrateVel n).x = n.x := by
  obtain ⟨px, hpx⟩ := Option.ne_none_iff_exists'.mp hfx
  cases hfy : n.fy <;>
    simp only [integrateVel, hpx, hfy] <;>
    exact ⟨by trivial, by trivial⟩

theorem integrateVel_y_unpinned (n : Node) (hfy : n.fy = none) :
    (integrateVel n).vy = maxQ (-maxVelocity) (minQ maxVelocity (n.vy * damping)) ∧
    (integrateVel n).y
      = n.y + maxQ (-maxVelocity) (minQ maxVelocity (n.vy * damping)) := by
  cases hfx : n.fx <;>
    simp only [integrateVel, hfx, hfy] <;>
    exact ⟨by trivial, by trivial⟩

theorem integrateVel_y_pinned (n : Node) (hfy : n.fy ≠ none) :
    (integrateVel n).vy = n.vy ∧ (integrateVel n).y = n.y := by
  obtain ⟨py, hpy⟩ := Option.ne_none_iff_exists'.mp hfy
  cases hfx : n.fx <;>
    simp only [integrateVel, hfx, hpy] <;>
    exact ⟨by trivial, by trivial⟩

/-- Claim C6: the tick integrates each node by applying `integrate` to its
post-force state, and `integrate` treats each axis as follows — without a
pin, the velocity is first damped by the factor 0.9, then clamped to
`[-5, 5]`, and only then added to the position (which is finally subjected
to the viewport clamp); with a pin, damping, velocity clamping and position
integration are all skipped (only the viewport clamp still applies). -/
theorem integration_step (sqrtF : ℚ → ℚ) (w h : ℚ) (nodes : List Node)
    (edges : List Edge) (i : ℕ) (hi : i < nodes.length) (n : Node) :
    damping = 0.9 ∧ maxVelocity = 5 ∧
    (simStep sqrtF w h nodes edges).getD i default
      = integrate w h
          ((attractionPhase (forcesPhase sqrtF w h nodes) edges).getD i default) ∧
    ((n.fx = none →
        (integrate w h n).vx
          = max (-maxVelocity) (min maxVelocity (n.vx * damping)) ∧
        (integrate w h n).x
          = max 40 (min (w - 40)
              (n.x + max (-maxVelocity) (min maxVelocity (n.vx * damping))))) ∧
     (n.fx ≠ none →
        (integrate w h n).vx = n.vx ∧
        (integrate w h n).x = max 40 (min (w - 40) n.x))) ∧
    ((n.fy = none →
        (integrate w h n).vy
          = max (-maxVelocity) (min maxVelocity (n.vy * damping)) ∧
        (integrate w h n).y
          = max 40 (min (h - 40)
              (n.y + max (-maxVelocity) (min maxVelocity (n.vy * damping))))) ∧
     (n.fy ≠ none →
        (integrate w h n).vy = n.vy ∧
        (integrate w h n).y = max 40 (min (h - 40) n.y))) := by
  have hvx : (integrate w h n).vx = (integrateVel n).vx := rfl
  have hvy : (integrate w h n).vy = (integrateVel n).vy := rfl
  have hx : (integrate w h n).x = maxQ 40 (minQ (w - 40) (integrateVel n).x) :=
    rfl
  have hy : (integrate w h n).y = maxQ 40 (minQ (h - 40) (integrateVel n).y) :=
    rfl
  refine ⟨rfl, rfl, ?_, ⟨fun hfx => ?_, fun hfx => ?_⟩,
          fun hfy => ?_, fun hfy => ?_⟩
  · rw [simStep]
    exact getD_map (integrate w h) _ i
      (by rw [length_attractionPhase, length_forcesPhase]; exact hi) _
  · obtain ⟨h1, h2⟩ := integrateVel_x_unpinned n hfx
    rw [hvx, hx, h1, h2, maxQ_eq_max, minQ_eq_min, maxQ_eq_max, minQ_eq_min]
    exact ⟨rfl, rfl⟩
  · obtain ⟨h1, h2⟩ := integrateVel_x_pinned n hfx
    rw [hvx, hx, h1, h2, maxQ_eq_max, minQ_eq_min]
    exact ⟨rfl, rfl⟩
  · obtain ⟨h1, h2⟩ := integrateVel_y_unpinned n hfy
    rw [hvy, hy, h1, h2, maxQ_eq_max, minQ_eq_min, maxQ_eq_max, minQ_eq_min]
    exact ⟨rfl, rfl⟩
  · obtain ⟨h1, h2⟩ := integrateVel_y_pinned n hfy
    rw [hvy, hy, h1, h2, maxQ_eq_max, minQ_eq_min]
    exact ⟨rfl, rfl⟩

/-- Witness for C6: the tick on a single centered node, and the unpinned
integration equations at that node. -/
theorem integration_step_witness :
    (simStep (fun _ => 0) 800 600 [sampleNode] []).getD 0 default
      = integrate 800 600
          ((attractionPhase (forcesPhase (fun _ => 0) 800 600 [sampleNode])
            []).getD 0 default) ∧
    (integrate 800 600 sampleNode).vx
      = max (-maxVelocity) (min maxVelocity (sampleNode.vx * damping)) :=
  ⟨(integration_step (fun _ => 0) 800 600 [sampleNode] [] 0 (by norm_num)
      sampleNode).2.2.1,
   ((integration_step (fun _ => 0) 800 600 [sampleNode] [] 0 (by norm_num)
      sampleNode).2.2.2.1.1 rfl).1⟩

/-! ## Claim C10 — hit-test tie resolution -/

/-- Claim C10: the pointerdown hit search and the hover hit search are the
same first-match search: they return `some n` exactly when `n` is within the
20-unit hit radius and occurs at a position in the loaded node array before
which no other node is within the radius — i.e. ties are resolved by array
order (load order), not by distance to the pointer. -/
theorem hit_test_first_match (sqrtF : ℚ → ℚ) (nodes : List Node) (zoom : ℚ)
    (pan : ℚ × ℚ) (clientX clientY left top : ℚ) (n : Node) :
    hoverHit sqrtF nodes zoom pan clientX clientY left top
      = mouseDownHit sqrtF nodes zoom pan clientX clientY left top ∧
    (mouseDownHit sqrtF nodes zoom pan clientX clientY left top = some n ↔
      hitNode sqrtF (screenToModel zoom pan clientX clientY left top).1
          (screenToModel zoom pan clientX clientY left top).2 n = true ∧
      ∃ i : ℕ, ∃ hl : i < nodes.length,
        nodes.get ⟨i, hl⟩ = n ∧
        ∀ j : ℕ, ∀ hj : j < i,
          hitNode sqrtF (screenToModel zoom pan clientX clientY left top).1
            (screenToModel zoom pan clientX clientY left top).2
            (nodes.get ⟨j, Nat.lt_trans hj hl⟩) = false) := by
  refine ⟨rfl, ?_⟩
  rw [mouseDownHit]
  rw [List.find?_eq_some_iff_getElem]
  constructor
  · rintro ⟨hp, i, hl, hget, hall⟩
    refine ⟨hp, i, hl, by simpa using hget, fun j hj => ?_⟩
    have := hall j hj
    simpa using this
  · rintro ⟨hp, i, hl, hget, hall⟩
    refine ⟨hp, i, hl, by simpa using hget, fun j hj => ?_⟩
    have := hall j hj
    simpa using this

/-- Witness for C10: with the pointer over the model origin, `nodeFar`
(distance 15, index 0) and `nodeNear` (distance 0, index 1) both lie in the
hit radius; the search returns `nodeFar`, the earlier one, not the nearer
one. -/
theorem hit_test_first_match_witness :
    mouseDownHit sqrtInt [nodeFar, nodeNear] 1 (0, 0) 0 0 0 0
      = some nodeFar :=
  (hit_test_first_match sqrtInt [nodeFar, nodeNear] 1 (0, 0) 0 0 0 0
      nodeFar).2.mpr
    ⟨by with_unfolding_all decide, 0, by decide, rfl,
     fun j hj => absurd hj (Nat.not_lt_zero j)⟩

/-! ## Invariance lemmas for the force and attraction passes -/

theorem kstat_repelStep (sqrtF : ℚ → ℚ) (a b : Node) :
    kstat (repelStep sqrtF a b) = kstat a := by
  unfold repelStep
  split
  · rfl
  · dsimp only
    split <;> rfl

theorem kstat_foldl_repelStep (sqrtF : ℚ → ℚ) (l : List Node) (a : Node) :
    kstat (l.foldl (repelStep sqrtF) a) = kstat a := by
  induction l generalizing a with
  | nil => rfl
  | cons b t ih => rw [List.foldl_cons, ih, kstat_repelStep]

theorem kstat_pinSnap (n : Node) :
    (pinSnap n).id = n.id ∧ (pinSnap n).fx = n.fx ∧ (pinSnap n).fy = n.fy ∧
    (pinSnap n).x = n.fx.getD n.x ∧ (pinSnap n).y = n.fy.getD n.y := by
  cases hfx : n.fx <;> cases hfy : n.fy <;>
    simp [pinSnap, hfx, hfy]

theorem forcePass_char (sqrtF : ℚ → ℚ) (w h : ℚ) (all : List Node)
    (n : Node) :
    (forcePass sqrtF w h all n).id = n.id ∧
    (forcePass sqrtF w h all n).fx = n.fx ∧
    (forcePass sqrtF w h all n).fy = n.fy ∧
    (forcePass sqrtF w h all n).x = n.fx.getD n.x ∧
    (forcePass sqrtF w h all n).y = n.fy.getD n.y := by
  obtain ⟨h1, h2, h3, h4, h5⟩ := kstat_pinSnap n
  have hk := kstat_foldl_repelStep sqrtF all (pinSnap n)
  simp only [kstat, Prod.mk.injEq] at hk
  obtain ⟨k1, k2, k3, k4, k5⟩ := hk
  exact ⟨k1.trans h1, k4.trans h2, k5.trans h3, k2.trans h4, k3.trans h5⟩

theorem getD_set_ne (l : List Node) (i j : ℕ) (a : Node) (hij : i ≠ j) :
    (l.set i a).getD j default = l.getD j default := by
  simp [List.getD_eq_getElem?_getD, List.getElem?_set_ne hij]

theorem getD_set_self (l : List Node) (i : ℕ) (a : Node)
    (hi : i < l.length) :
    (l.set i a).getD i default = a := by
  simp [List.getD_eq_getElem?_getD, List.getElem?_set_self hi]

theorem foldl_set_getD_not_mem (F : List Node → ℕ → Node) (l : List ℕ)
    (st : List Node) (j : ℕ) (hj : j ∉ l) :
    (l.foldl (fun s i => s.set i (F s i)) st).getD j default
      = st.getD j default := by
  induction l generalizing st with
  | nil => rfl
  | cons i t ih =>
      rw [List.foldl_cons]
      rw [ih _ (fun hm => hj (List.mem_cons_of_mem i hm))]
      exact getD_set_ne _ _ _ _ (fun e => hj (e ▸ List.mem_cons_self i t))

theorem foldl_set_getD_spec (F : List Node → ℕ → Node) (l : List ℕ)
    (st : List Node) (j : ℕ) (hnd : l.Nodup) (hj : j ∈ l)
    (hlen : ∀ i ∈ l, i < st.length) :
    ∃ st2 : List Node,
      (l.foldl (fun s i => s.set i (F s i)) st).getD j default
        = F st2 j ∧ st2.getD j default = st.getD j default := by
  induction l generalizing st with
  | nil => exact absurd hj (List.not_mem_nil j)
  | cons i t ih =>
      rw [List.foldl_cons]
      rcases List.mem_cons.mp hj with rfl | hjt
      · have hnotm : j ∉ t := (List.nodup_cons.mp hnd).1
        refine ⟨st, ?_, rfl⟩
        rw [foldl_set_getD_not_mem F t _ j hnotm]
        exact getD_set_self st j _ (hlen j (List.mem_cons_self j t))
      · have hij : i ≠ j := fun e =>
          (List.nodup_cons.mp hnd).1 (e ▸ hjt)
        obtain ⟨st2, hst2, hpre⟩ := ih (st.set i (F st i))
          (List.nodup_cons.mp hnd).2 hjt
          (fun k hk => by
            rw [List.length_set]; exact hlen k (List.mem_cons_of_mem i hk))
        exact ⟨st2, hst2, hpre.trans (getD_set_ne st i j _ hij)⟩

theorem forcesPhase_getD (sqrtF : ℚ → ℚ) (w h : ℚ) (nodes : List Node)
    (j : ℕ) (hj : j < nodes.length) :
    ∃ st2 : List Node,
      (forcesPhase sqrtF w h nodes).getD j default
        = forcePass sqrtF w h st2 (st2.getD j default) ∧
      st2.getD j default = nodes.getD j default := by
  obtain ⟨st2, h1, h2⟩ := foldl_set_getD_spec
    (fun s i => forcePass sqrtF w h s (s.getD i default))
    (List.range nodes.length) nodes j (List.nodup_range _)
    (List.mem_range.mpr hj) (fun i hi => List.mem_range.mp hi)
  exact ⟨st2, h1, h2⟩

theorem findIdx?_lt_length {p : Node → Bool} {l : List Node} {i : ℕ}
    (hf : l.findIdx? p = some i) : i < l.length :=
  (List.findIdx?_eq_some_iff_findIdx_eq.mp hf).1

theorem kstat_attractEdge_getD (st : List Node) (e : Edge) (j : ℕ) :
    kstat ((attractEdge st e).getD j default) = kstat (st.getD j default) := by
  unfold attractEdge
  cases hfs : st.findIdx? (fun n => n.id = e.source) with
  | none => rfl
  | some si =>
      cases hft : st.findIdx? (fun n => n.id = e.target) with
      | none => rfl
      | some ti =>
          dsimp only
          have hsl : si < st.length := findIdx?_lt_length hfs
          have htl : ti < st.length := findIdx?_lt_length hft
          by_cases hjt : ti = j
          · subst hjt
            rw [getD_set_self _ _ _ (by rw [List.length_set]; exact htl)]
            by_cases hjs : si = ti
            · subst hjs
              rw [getD_set_self _ _ _ hsl]
              rfl
            · rw [getD_set_ne _ _ _ _ hjs]
              rfl
          · rw [getD_set_ne _ _ _ _ hjt]
            by_cases hjs : si = j
            · subst hjs
              rw [getD_set_self _ _ _ hsl]
              rfl
            · rw [getD_set_ne _ _ _ _ hjs]

theorem kstat_attractionPhase_getD (st : List Node) (edges : List Edge)
    (j : ℕ) :
    kstat ((attractionPhase st edges).getD j default)
      = kstat (st.getD j default) := by
  induction edges generalizing st with
  | nil => rfl
  | cons e t ih =>
      show kstat ((attractionPhase (attractEdge st e) t).getD j default) = _
      rw [ih (attractEdge st e), kstat_attractEdge_getD]

/-! ## Claim C3 — pin fidelity -/

/-- Counterexample to claim C3 as stated: a node pinned at (10, 10) in an
800×800 viewport does NOT end the tick at its pin — the unconditional
viewport clamp of lines 244-245 moves it to (40, 40). -/
theorem pin_fidelity_counterexample :
    ¬ (((simStep (fun _ => 0) 800 800 [pinnedOutside] []).getD 0 default).x
          = 10 ∧
       ((simStep (fun _ => 0) 800 800 [pinnedOutside] []).getD 0 default).y
          = 10) := by
  with_unfolding_all decide

/-- Claim C3 amended: while a node's pin is set to `(px, py)`, at the end of
every tick its position equals the pin clamped to the viewport inset,
`(clamp px, clamp py)` with `clamp t = max 40 (min (side − 40) t)` —
regardless of forces from other nodes; in particular the position equals
`(px, py)` exactly whenever the pin lies inside the inset
`[40, w − 40] × [40, h − 40]`. -/
theorem pin_fidelity (sqrtF : ℚ → ℚ) (w h : ℚ) (nodes : List Node)
    (edges : List Edge) (i : ℕ) (px py : ℚ) (hi : i < nodes.length)
    (hfx : (nodes.getD i default).fx = some px)
    (hfy : (nodes.getD i default).fy = some py) :
    ((simStep sqrtF w h nodes edges).getD i default).x
      = max 40 (min (w - 40) px) ∧
    ((simStep sqrtF w h nodes edges).getD i default).y
      = max 40 (min (h - 40) py) ∧
    (40 ≤ px → px ≤ w - 40 →
      ((simStep sqrtF w h nodes edges).getD i default).x = px) ∧
    (40 ≤ py → py ≤ h - 40 →
      ((simStep sqrtF w h nodes edges).getD i default).y = py) := by
  have hlen : i < (attractionPhase (forcesPhase sqrtF w h nodes) edges).length := by
    rw [length_attractionPhase, length_forcesPhase]; exact hi
  have hmap : (simStep sqrtF w h nodes edges).getD i default
      = integrate w h
          ((attractionPhase (forcesPhase sqrtF w h nodes) edges).getD i
            default) := by
    rw [simStep]; exact getD_map _ _ _ hlen _
  obtain ⟨st2, hforce, hpre⟩ := forcesPhase_getD sqrtF w h nodes i hi
  have hk1 := kstat_attractionPhase_getD (forcesPhase sqrtF w h nodes)
    edges i
  rw [hforce] at hk1
  obtain ⟨c1, c2, c3, c4, c5⟩ :=
    forcePass_char sqrtF w h st2 (st2.getD i default)
  rw [hpre] at c2 c3 c4 c5
  rw [hfx] at c2 c4
  rw [hfy] at c3 c5
  simp only [Option.getD_some] at c4 c5
  simp only [kstat, Prod.mk.injEq] at hk1
  obtain ⟨p1, p2, p3, p4, p5⟩ := hk1
  rw [hpre] at p2 p3 p4 p5
  rw [c4] at p2
  rw [c5] at p3
  rw [c2] at p4
  rw [c3] at p5
  set p := (attractionPhase (forcesPhase sqrtF w h nodes) edges).getD i
    default with hpdef
  obtain ⟨_, hvx⟩ := integrateVel_x_pinned p (by rw [p4]; exact fun e => Option.noConfusion e)
  obtain ⟨_, hvy⟩ := integrateVel_y_pinned p (by rw [p5]; exact fun e => Option.noConfusion e)
  have hxval : (integrate w h p).x = maxQ 40 (minQ (w - 40) (integrateVel p).x) := rfl
  have hyval : (integrate w h p).y = maxQ 40 (minQ (h - 40) (integrateVel p).y) := rfl
  rw [hvx, p2] at hxval
  rw [hvy, p3] at hyval
  rw [maxQ_eq_max, minQ_eq_min] at hxval hyval
  refine ⟨by rw [hmap]; exact hxval, by rw [hmap]; exact hyval,
          fun hlo hhi => ?_, fun hlo hhi => ?_⟩
  · rw [hmap, hxval, min_eq_right hhi, max_eq_right hlo]
  · rw [hmap, hyval, min_eq_right hhi, max_eq_right hlo]

/-- Witness for the amended C3: a node pinned at (100, 100) inside an
800×800 viewport ends the tick exactly at its pin. -/
theorem pin_fidelity_witness :
    ((simStep (fun _ => 0) 800 800 [pinnedInside] []).getD 0 default).x
      = 100 ∧
    ((simStep (fun _ => 0) 800 800 [pinnedInside] []).getD 0 default).y
      = 100 :=
  ⟨(pin_fidelity (fun _ => 0) 800 800 [pinnedInside] [] 0 100 100
      (by norm_num) rfl rfl).2.2.1 (by norm_num) (by norm_num),
   (pin_fidelity (fun _ => 0) 800 800 [pinnedInside] [] 0 100 100
      (by norm_num) rfl rfl).2.2.2 (by norm_num) (by norm_num)⟩

/-! ## Claim C1 — edge filtering -/

theorem map_id_set (st : List Node) (i : ℕ) (n : Node)
    (hid : n.id = (st.getD i default).id) :
    (st.set i n).map (fun m => m.id) = st.map (fun m => m.id) := by
  induction st generalizing i with
  | nil => rfl
  | cons a t ih =>
      cases i with
      | zero =>
          simp only [List.getD_cons_zero] at hid
          simp [hid]
      | succ k =>
          simp only [List.getD_cons_succ] at hid
          simp only [List.set_cons_succ, List.map_cons, List.cons.injEq]
          exact ⟨by trivial, ih k hid⟩

theorem attractEdge_map_id (st : List Node) (e : Edge) :
    (attractEdge st e).map (fun m => m.id) = st.map (fun m => m.id) := by
  unfold attractEdge
  cases hfs : st.findIdx? (fun n => n.id = e.source) with
  | none => rfl
  | some si =>
      cases hft : st.findIdx? (fun n => n.id = e.target) with
      | none => rfl
      | some ti =>
          dsimp only
          refine (map_id_set _ ti _ ?_).trans (map_id_set _ si _ ?_) <;> rfl

theorem hasNode_map_any (l : List Node) (s : String) :
    hasNode l s = (l.map (fun m => m.id)).any (fun i => i = s) := by
  induction l with
  | nil => rfl
  | cons a t ih =>
      simp only [hasNode, List.map_cons, List.any_cons] at ih ⊢
      rw [ih]

theorem hasNode_congr (st st2 : List Node)
    (hmap : st.map (fun m => m.id) = st2.map (fun m => m.id)) (s : String) :
    hasNode st s = hasNode st2 s := by
  rw [hasNode_map_any, hasNode_map_any, hmap]

theorem hasNode_false_findIdx? (st : List Node) (s : String)
    (hm : hasNode st s = false) :
    st.findIdx? (fun n => n.id = s) = none := by
  rw [List.findIdx?_eq_none_iff]
  intro x hx
  rw [hasNode, List.any_eq_false] at hm
  simpa using hm x hx

theorem attractEdge_skip (st : List Node) (e : Edge)
    (hmiss : hasNode st e.source = false ∨ hasNode st e.target = false) :
    attractEdge st e = st := by
  unfold attractEdge
  rcases hmiss with hm | hm
  · rw [hasNode_false_findIdx? st e.source hm]
  · rw [hasNode_false_findIdx? st e.target hm]
    cases hfs : st.findIdx? (fun n => n.id = e.source) <;> rfl

theorem attraction_filter_eq (edges : List Edge) (st : List Node) :
    attractionPhase st edges
      = attractionPhase st
          (edges.filter
            (fun e => hasNode st e.source && hasNode st e.target)) := by
  induction edges generalizing st with
  | nil => rfl
  | cons e t ih =>
      by_cases hp : (hasNode st e.source && hasNode st e.target) = true
      · rw [show List.filter
              (fun x => hasNode st x.source && hasNode st x.target) (e :: t)
            = e :: List.filter
              (fun x => hasNode st x.source && hasNode st x.target) t
          from List.filter_cons_of_pos hp]
        show attractionPhase (attractEdge st e) t
          = attractionPhase (attractEdge st e)
              (t.filter (fun x => hasNode st x.source && hasNode st x.target))
        rw [ih (attractEdge st e)]
        congr 1
        apply List.filter_congr
        intro x _
        rw [hasNode_congr _ st (attractEdge_map_id st e) x.source,
            hasNode_congr _ st (attractEdge_map_id st e) x.target]
      · rw [show List.filter
              (fun x => hasNode st x.source && hasNode st x.target) (e :: t)
            = List.filter
              (fun x => hasNode st x.source && hasNode st x.target) t
          from List.filter_cons_of_neg hp]
        have hskip : attractEdge st e = st := by
          apply attractEdge_skip
          have hf : (hasNode st e.source && hasNode st e.target) = false := by
            simpa using hp
          rcases Bool.and_eq_false_iff.mp hf with hm | hm
          · exact Or.inl hm
          · exact Or.inr hm
        show attractionPhase (attractEdge st e) t = _
        rw [hskip]
        exact ih st

theorem drawnEdges_present (filter : List String) (nodes : List Node)
    (edges : List Edge) :
    ∀ e ∈ drawnEdges filter nodes edges,
      hasNode nodes e.source = true ∧ hasNode nodes e.target = true := by
  intro e he
  rw [drawnEdges] at he
  obtain ⟨-, hcond⟩ := List.mem_filter.mp he
  simp only [Bool.and_eq_true] at hcond
  obtain ⟨⟨⟨-, -⟩, h3⟩, h4⟩ := hcond
  constructor
  · rw [hasNode, List.any_eq_true]
    obtain ⟨x, hx1, hx2⟩ := List.find?_isSome.mp h3
    exact ⟨x, hx1, hx2⟩
  · rw [hasNode, List.any_eq_true]
    obtain ⟨x, hx1, hx2⟩ := List.find?_isSome.mp h4
    exact ⟨x, hx1, hx2⟩

/-- Counterexample to claim C1 as stated: loading nodes `{A, B}` with edges
`[{A,B}, {A,C}]` (`C` absent) does NOT drop the dangling edge — line 145
stores `data.edges` unfiltered, so the stored edge set contains an edge
whose target id is missing from the loaded node set. -/
theorem edge_filtering_counterexample :
    ¬ (∀ e ∈ (initGraph 0 (fun _ => 0) (fun _ => 0) (fun _ => (0, 0, 0))
          800 600 dataAB).2,
        hasNode (initGraph 0 (fun _ => 0) (fun _ => 0) (fun _ => (0, 0, 0))
            800 600 dataAB).1 e.source = true ∧
        hasNode (initGraph 0 (fun _ => 0) (fun _ => 0) (fun _ => (0, 0, 0))
            800 600 dataAB).1 e.target = true) := by
  with_unfolding_all decide

/-- Claim C1 amended: `initializeGraph` stores the received edge set
unfiltered (dangling edges are NOT dropped at load time), but such edges are
inert: the attraction pass is unchanged if every edge lacking an endpoint id
among the current nodes is removed, and every edge the renderer draws has
both endpoint ids present among the current nodes. -/
theorem edge_filtering (piQ : ℚ) (cosF sinF : ℚ → ℚ)
    (rand : ℕ → ℚ × ℚ × ℚ) (w h : ℚ) (data : GraphData) (st : List Node)
    (edges : List Edge) (filter : List String) :
    (initGraph piQ cosF sinF rand w h data).2 = data.edges ∧
    attractionPhase st edges
      = attractionPhase st
          (edges.filter
            (fun e => hasNode st e.source && hasNode st e.target)) ∧
    (∀ e ∈ drawnEdges filter st edges,
      hasNode st e.source = true ∧ hasNode st e.target = true) :=
  ⟨rfl, attraction_filter_eq edges st, drawnEdges_present filter st edges⟩

/-- Witness for the amended C1, at the spec's concrete example data. -/
theorem edge_filtering_witness :
    attractionPhase [nodeFar, nodeNear] dataAB.edges
      = attractionPhase [nodeFar, nodeNear]
          (dataAB.edges.filter
            (fun e => hasNode [nodeFar, nodeNear] e.source &&
                      hasNode [nodeFar, nodeNear] e.target)) :=
  (edge_filtering 0 (fun _ => 0) (fun _ => 0) (fun _ => (0, 0, 0)) 800 600
    dataAB [nodeFar, nodeNear] dataAB.edges []).2.1

end GraphEngine
